import Mathlib

/-!
Verification of the `lb-steg` LSB audio steganography core.

This file gives a shallow embedding of the bit-level codec of the
repository (`src/audio_steg/core.py` and `src/audio_steg/utils.py`):
the 12-byte little-endian header codec, the capacity arithmetic, the
aspect-preserving fit resizer, and the LSB embed/extract engine, and it
proves the specified properties about them.

Modelling conventions:
* Audio samples are Python integers; they are modelled as `ℤ`.  Python's
  bitwise `x & ~1`, `x | 1`, `x & 1` on integers coincide with the
  arithmetic `x - x % 2 + b` and `x % 2` where `%` is Euclidean remainder
  (Lean's `Int.emod`, which is what `%` on `ℤ` denotes), so the model uses
  the arithmetic form.  Python's floor division `//` by a positive
  constant coincides with Lean's `/` on `ℤ` (Euclidean division, which
  floors for positive divisors).
* Byte strings are `List ℕ` with every element `< 256`; bit streams are
  `List ℕ` with every element `< 2`.
* Python exceptions are modelled by an error type `StegError` returned
  through `Except`.  In the source every fatal condition raises
  `ValueError` except an out-of-range list write, which raises
  `IndexError`; the constructors record the raise site.
* The file-system, WAV container and PIL image decoding boundaries are
  outside the core (the spec treats them as external collaborators); the
  model starts from the decoded sample list and RGB byte payload.
-/

deriving instance DecidableEq for Except

namespace AudioSteg

/-- Error kinds of the codec.  All of them are `ValueError` in the Python
source except `indexError`, which is the `IndexError` a Python list raises
on an out-of-range index. -/
inductive StegError where
  /-- `ValueError("Image too large! ...")` raised by `hide_image` when
  `auto_resize` is off and the payload does not fit. -/
  | capacityExceeded
  /-- `ValueError` raised by `extract_image` when the decoded header is
  out of sane range (zero field or dimension above 10000). -/
  | corruptHeader
  /-- `ValueError("Not enough samples to extract image...")` raised by
  `extract_image` when the declared payload overruns the buffer. -/
  | truncatedStream
  /-- `IndexError` from an out-of-range Python list access. -/
  | indexError
  /-- `ValueError("math domain error")` from `math.sqrt` of a negative
  number inside the resizer. -/
  | mathDomain
  /-- `ZeroDivisionError` from a division by zero inside the resizer. -/
  | zeroDivision
  /-- `ValueError` raised by the external image library when asked to
  resize to a non-positive dimension. -/
  | invalidResizeDims
deriving DecidableEq

/-- Least-significant bit of a sample: Python `sample & 1`. -/
def lsb (x : ℤ) : ℕ := (x % 2).toNat

/-- Overwrite the least-significant bit of a sample with bit `b`:
Python `sample | 1` when the bit is one and `sample & ~1` when it is
zero, i.e. `x - x % 2 + b` for `b < 2`. -/
def set_lsb (x : ℤ) (b : ℕ) : ℤ := x - x % 2 + b

/-- Bits of one byte, least-significant first: the inner loop
`(byte >> bit_position) & 1` for `bit_position` in `0..7`. -/
def byteToBits (v : ℕ) : List ℕ :=
  [v % 2, v / 2 % 2, v / 4 % 2, v / 8 % 2,
   v / 16 % 2, v / 32 % 2, v / 64 % 2, v / 128 % 2]

/-- Bit stream of a byte string, each byte expanded LSB-first, in order. -/
def bytesToBits (bytes : List ℕ) : List ℕ :=
  (bytes.map byteToBits).flatten

/-- Value of a bit list read LSB-first: `Σ bits[j] << j`.  Missing
high bits count as zero, exactly like the guarded accumulation loop
`byte |= (bits[i + j] << j)` in the source. -/
def bitsNum : List ℕ → ℕ
  | [] => 0
  | b :: rest => b + 2 * bitsNum rest

/-- Repack a bit stream into bytes, eight bits per byte, LSB-first,
mirroring the `for i in range(0, len(bits), 8)` loops of the source
(whose `if i + j < len` guard zero-pads a trailing partial byte). -/
def bitsToBytes : List ℕ → List ℕ
  | [] => []
  | b0 :: b1 :: b2 :: b3 :: b4 :: b5 :: b6 :: b7 :: rest =>
    bitsNum [b0, b1, b2, b3, b4, b5, b6, b7] :: bitsToBytes rest
  | l => [bitsNum l]

/-- Four little-endian bytes of an unsigned 32-bit value, as produced for
each field by `struct.pack("<III", ...)`. -/
def u32LE (v : ℕ) : List ℕ :=
  [v % 256, v / 256 % 256, v / 65536 % 256, v / 16777216 % 256]

/-- Read a little-endian unsigned 32-bit value from the first four bytes
of a byte string, as `struct.unpack("<III", ...)` does per field. -/
def u32FromLE (l : List ℕ) : ℕ :=
  l.getD 0 0 + 256 * l.getD 1 0 + 65536 * l.getD 2 0 + 16777216 * l.getD 3 0

/-- Header serialisation `struct.pack("<III", width, height, img_size)`:
three little-endian u32 fields in the fixed order width, height, size. -/
def pack_header (width height img_size : ℕ) : List ℕ :=
  u32LE width ++ u32LE height ++ u32LE img_size

/-- Header parse `struct.unpack("<III", header_bytes)` on a 12-byte
record: the three fields at byte offsets 0, 4 and 8. -/
def unpack_header (bs : List ℕ) : ℕ × ℕ × ℕ :=
  (u32FromLE bs, u32FromLE (bs.drop 4), u32FromLE (bs.drop 8))

/-- Decoded RGB payload: dimensions plus the raw `tobytes()` buffer
(row-major RGB, three bytes per pixel, so a well-formed payload has
`data.length = width * height * 3`). -/
structure ImagePayload where
  width : ℕ
  height : ℕ
  data : List ℕ
deriving DecidableEq

/-- Result record of a successful `hide_image` call (the dict the source
returns, minus the output path; `capacity_usage` is the Python float
`total_bits / len(samples) * 100`, modelled exactly in `ℚ`). -/
structure HideResult where
  out_samples : List ℤ
  image_size : ℕ × ℕ
  data_bytes : ℕ
  capacity_usage : ℚ
deriving DecidableEq

/-- Capacity record of `get_audio_capacity` (the numeric fields derived
from the sample count; the duration field needs the frame rate and is
modelled in `capacity_kb`-style exact rationals). -/
structure CapacityReport where
  samples : ℕ
  capacity_bytes : ℤ
  capacity_kb : ℚ
deriving DecidableEq

/-- Result record of `resize_image_for_audio` (the dict the source
returns, minus the output path). -/
structure FitResult where
  resized : Bool
  original_size : ℕ × ℕ
  final_size : ℕ × ℕ
  original_bytes : ℕ
  final_bytes : ℕ
deriving DecidableEq

/-- Capacity calculator `get_audio_capacity`: the source reads
`n_frames` and `n_channels` from the WAV container, sets
`samples = n_frames * n_channels` and reports
`capacity_bytes = samples // 8 - 12`. -/
def get_audio_capacity (n_frames n_channels : ℕ) : CapacityReport :=
  let samples := n_frames * n_channels
  let capacity_bytes : ℤ := (samples / 8 : ℕ) - 12
  { samples := samples
    capacity_bytes := capacity_bytes
    capacity_kb := (capacity_bytes : ℚ) / 1024 }

/-- Correction loop of the fit resizer:
`while new_width * new_height * 3 > max_bytes: new_width -= 1;
new_height = int(new_width / aspect_ratio)`.  The recursion is on
`new_width`; when `new_width = 0` the product is zero, so for a
non-negative budget the Python condition is false and the loop stops,
which is what the base case returns. -/
def shrink_loop (aspect : ℚ) (max_bytes : ℤ) : ℕ → ℕ → ℕ × ℕ
  | 0, h => (0, h)
  | w + 1, h =>
    if (((w + 1) * h * 3 : ℕ) : ℤ) > max_bytes then
      shrink_loop aspect max_bytes w (⌊(w : ℚ) / aspect⌋).toNat
    else (w + 1, h)

/-- Dimension search shared by `resize_image_obj` and
`resize_image_for_audio` (the two functions duplicate this block
verbatim): `max_pixels = max_bytes // 3`,
`aspect_ratio = orig_width / orig_height`,
`new_height = int(math.sqrt(max_pixels / aspect_ratio))`,
`new_width = int(new_height * aspect_ratio)`, then the correction loop.
Divisions by zero raise `ZeroDivisionError` and a negative `sqrt`
argument raises a math domain `ValueError`, in source order.  The source
computes the square root with IEEE doubles; the model uses the exact
value `⌊√q⌋ = Nat.sqrt ⌊q⌋` the spec describes (`floor(sqrt(...))`). -/
def resize_core (orig_width orig_height : ℕ) (max_bytes : ℤ) :
    Except StegError (ℕ × ℕ) :=
  let max_pixels : ℤ := max_bytes / 3
  if orig_height = 0 then .error .zeroDivision
  else
    let aspect : ℚ := (orig_width : ℚ) / (orig_height : ℚ)
    if aspect = 0 then .error .zeroDivision
    else if (max_pixels : ℚ) / aspect < 0 then .error .mathDomain
    else
      let new_height := Nat.sqrt (⌊(max_pixels : ℚ) / aspect⌋).toNat
      let new_width := (⌊(new_height : ℚ) * aspect⌋).toNat
      .ok (shrink_loop aspect max_bytes new_width new_height)

/-- Fit resizer `resize_image_obj`: if `orig_width * orig_height * 3`
already fits in `max_bytes` the payload is returned unchanged, otherwise
new dimensions are computed with `resize_core` and the image is
resampled at those dimensions.  Modelled from the spec: the pixel
resampling itself (`img.resize(..., LANCZOS)`) is delegated to the
external image library, which rejects non-positive dimensions with a
`ValueError` and otherwise produces a buffer of exactly
`new_width * new_height * 3` bytes whose pixel values the spec leaves to
the resampling filter (the model uses zero bytes of the correct
length). -/
def resize_image_obj (img : ImagePayload) (max_bytes : ℤ) :
    Except StegError ImagePayload :=
  if ((img.width * img.height * 3 : ℕ) : ℤ) ≤ max_bytes then .ok img
  else
    match resize_core img.width img.height max_bytes with
    | .error e => .error e
    | .ok (new_width, new_height) =>
      if new_width = 0 ∨ new_height = 0 then .error .invalidResizeDims
      else .ok ⟨new_width, new_height, List.replicate (new_width * new_height * 3) 0⟩

/-- File-based fit resizer `resize_image_for_audio` on an already-decoded
payload: same arithmetic as `resize_image_obj`, but it reports a
`FitResult` record (`resized = false` and unchanged dimensions on the
no-op path). -/
def resize_image_for_audio (img : ImagePayload) (max_bytes : ℤ) :
    Except StegError FitResult :=
  let orig_size := img.width * img.height * 3
  if (orig_size : ℤ) ≤ max_bytes then
    .ok { resized := false
          original_size := (img.width, img.height)
          final_size := (img.width, img.height)
          original_bytes := orig_size
          final_bytes := orig_size }
  else
    match resize_core img.width img.height max_bytes with
    | .error e => .error e
    | .ok (new_width, new_height) =>
      if new_width = 0 ∨ new_height = 0 then .error .invalidResizeDims
      else
        .ok { resized := true
              original_size := (img.width, img.height)
              final_size := (new_width, new_height)
              original_bytes := orig_size
              final_bytes := new_width * new_height * 3 }

/-- Bit-write loop of `hide_image`: walk the data bits LSB-first and
overwrite sample `i`'s least-significant bit with bit `i`.  Writing past
the end of the sample list is the Python `IndexError`. -/
def embedBits : List ℤ → List ℕ → Except StegError (List ℤ)
  | s, [] => .ok s
  | [], _ :: _ => .error .indexError
  | x :: s, b :: bs =>
    match embedBits s bs with
    | .ok r => .ok (set_lsb x b :: r)
    | .error e => .error e

/-- Embedding stage of `hide_image` once the payload is final: serialise
the header over `(width, height, data.length)`, concatenate the RGB
bytes, write the bit stream into the sample LSBs and report the result
record.  `capacity_usage` is computed exactly as in the source,
`total_bits / len(samples) * 100`. -/
def embed_payload (samples : List ℤ) (img : ImagePayload) :
    Except StegError HideResult :=
  let total_data := pack_header img.width img.height img.data.length ++ img.data
  let total_bits := total_data.length * 8
  match embedBits samples (bytesToBits total_data) with
  | .error e => .error e
  | .ok out =>
    .ok { out_samples := out
          image_size := (img.width, img.height)
          data_bytes := img.data.length
          capacity_usage := (total_bits : ℚ) / (samples.length : ℚ) * 100 }

/-- Core of `hide_image` after the WAV and image files are decoded.  The
header is 12 bytes, so `total_bits = len(header + img_bytes) * 8
= (12 + len(img_bytes)) * 8`.  If that exceeds the sample count the call
either fails with the capacity `ValueError` (`auto_resize` off) or
recomputes the payload with `resize_image_obj` at the budget
`len(samples) // 8 - 12` and embeds whatever comes back without
rechecking capacity. -/
def hide_image (samples : List ℤ) (img : ImagePayload) (auto_resize : Bool) :
    Except StegError HideResult :=
  if (12 + img.data.length) * 8 > samples.length then
    if auto_resize then
      match resize_image_obj img (((samples.length / 8 : ℕ) : ℤ) - 12) with
      | .error e => .error e
      | .ok img2 => embed_payload samples img2
    else .error .capacityExceeded
  else embed_payload samples img

/-- Header as decoded by `extract_image`: the first 96 sample LSBs packed
into 12 bytes LSB-first and parsed as three little-endian u32 fields. -/
def read_header (samples : List ℤ) : ℕ × ℕ × ℕ :=
  unpack_header (bitsToBytes ((samples.take 96).map lsb))

/-- Core of `extract_image` after the WAV file is decoded.  Reading the
96 header bits indexes `samples[0..95]` directly, so a buffer shorter
than 96 samples raises `IndexError`.  The decoded header is validated
(positive fields, dimensions at most 10000, both failures raising the
same `ValueError` kind), the declared payload run is bounds-checked, and
the payload bytes are reassembled from the LSBs at offset 96. -/
def extract_image (samples : List ℤ) : Except StegError ImagePayload :=
  if samples.length < 96 then .error .indexError
  else
    let hdr := read_header samples
    let width := hdr.1
    let height := hdr.2.1
    let img_size := hdr.2.2
    if width = 0 ∨ height = 0 ∨ img_size = 0 then .error .corruptHeader
    else if 10000 < width ∨ 10000 < height then .error .corruptHeader
    else if samples.length < 96 + img_size * 8 then .error .truncatedStream
    else
      let img_bits := ((samples.drop 96).take (img_size * 8)).map lsb
      .ok ⟨width, height, (bitsToBytes img_bits).take img_size⟩

/-- Concrete embedding result used to exercise the frame property:
hiding the degenerate 0x0 payload in 96 zero samples (96 header bits,
all zero, written onto zero samples). -/
def frame_example : HideResult :=
  { out_samples := List.replicate 96 0
    image_size := (0, 0)
    data_bytes := 0
    capacity_usage := 100 }

/-- Validation predicate of `extract_image` on the decoded header
`(width, height, img_size)`: all three fields positive and the
dimensions at most 10000. -/
def header_valid (t : ℕ × ℕ × ℕ) : Prop :=
  0 < t.1 ∧ 0 < t.2.1 ∧ 0 < t.2.2 ∧ t.1 ≤ 10000 ∧ t.2.1 ≤ 10000

instance (t : ℕ × ℕ × ℕ) : Decidable (header_valid t) := by
  unfold header_valid
  infer_instance

/-! ### Bit-level lemmas -/

theorem lsb_set_lsb (x : ℤ) (b : ℕ) (hb : b < 2) : lsb (set_lsb x b) = b := by
  simp only [lsb, set_lsb]
  omega

theorem set_lsb_div_two (x : ℤ) (b : ℕ) (hb : b < 2) : set_lsb x b / 2 = x / 2 := by
  simp only [set_lsb]
  omega

theorem bytesToBits_nil : bytesToBits [] = [] := rfl

theorem bytesToBits_cons (v : ℕ) (rest : List ℕ) :
    bytesToBits (v :: rest) = byteToBits v ++ bytesToBits rest := by
  simp [bytesToBits]

theorem bytesToBits_append (a b : List ℕ) :
    bytesToBits (a ++ b) = bytesToBits a ++ bytesToBits b := by
  simp [bytesToBits]

theorem length_bytesToBits (l : List ℕ) : (bytesToBits l).length = 8 * l.length := by
  induction l with
  | nil => rfl
  | cons v rest ih =>
    rw [bytesToBits_cons]
    simp only [List.length_append, ih, byteToBits, List.length_cons]
    simp
    omega

theorem mem_bytesToBits_lt_two (l : List ℕ) : ∀ b ∈ bytesToBits l, b < 2 := by
  induction l with
  | nil => intro b hb; simp [bytesToBits_nil] at hb
  | cons v rest ih =>
    intro b hb
    rw [bytesToBits_cons, List.mem_append] at hb
    rcases hb with hb | hb
    · simp only [byteToBits, List.mem_cons, List.not_mem_nil, or_false] at hb
      rcases hb with h | h | h | h | h | h | h | h <;> omega
    · exact ih b hb

theorem bitsToBytes_bytesToBits (l : List ℕ) (hl : ∀ v ∈ l, v < 256) :
    bitsToBytes (bytesToBits l) = l := by
  induction l with
  | nil => simp [bytesToBits_nil, bitsToBytes]
  | cons v rest ih =>
    have hv : v < 256 := hl v (by simp)
    have tail : bitsToBytes (bytesToBits rest) = rest :=
      ih fun x hx => hl x (by simp [hx])
    rw [bytesToBits_cons]
    simp only [byteToBits, List.cons_append, List.nil_append, bitsToBytes, bitsNum, tail]
    congr 1
    omega

/-! ### Header codec lemmas -/

theorem length_pack_header (w h s : ℕ) : (pack_header w h s).length = 12 := rfl

theorem mem_pack_header_lt (w h s : ℕ) : ∀ v ∈ pack_header w h s, v < 256 := by
  intro v hv
  simp only [pack_header, u32LE, List.mem_append, List.mem_cons, List.not_mem_nil,
    or_false] at hv
  rcases hv with (h1 | h1 | h1 | h1) | (h1 | h1 | h1 | h1) | (h1 | h1 | h1 | h1) <;> omega

theorem unpack_pack_header (w h s : ℕ)
    (hw : w < 4294967296) (hh : h < 4294967296) (hs : s < 4294967296) :
    unpack_header (pack_header w h s) = (w, h, s) := by
  simp only [pack_header, u32LE, unpack_header, u32FromLE, List.cons_append,
    List.nil_append, List.drop_succ_cons, List.drop_zero, List.getD_cons_zero,
    List.getD_cons_succ]
  refine Prod.ext ?_ (Prod.ext ?_ ?_) <;> simp <;> omega

/-! ### Bit-write loop lemmas -/

theorem embedBits_eq (bits : List ℕ) : ∀ s : List ℤ, bits.length ≤ s.length →
    embedBits s bits = .ok (List.zipWith set_lsb s bits ++ s.drop bits.length) := by
  induction bits with
  | nil => intro s _; simp [embedBits]
  | cons b bs ih =>
    intro s hs
    cases s with
    | nil => simp at hs
    | cons x xs =>
      simp only [List.length_cons, Nat.add_le_add_iff_right] at hs
      simp only [embedBits, ih xs hs, List.zipWith_cons_cons, List.length_cons,
        List.drop_succ_cons, List.cons_append]

theorem embedBits_ok_length (bits : List ℕ) : ∀ (s : List ℤ) (out : List ℤ),
    embedBits s bits = .ok out → bits.length ≤ s.length := by
  induction bits with
  | nil => intro s out _; simp
  | cons b bs ih =>
    intro s out hout
    cases s with
    | nil => simp [embedBits] at hout
    | cons x xs =>
      simp only [embedBits] at hout
      cases hr : embedBits xs bs with
      | ok r =>
        have := ih xs r hr
        simp [List.length_cons]
        omega
      | error e => rw [hr] at hout; simp at hout

theorem map_lsb_embed (bits : List ℕ) : ∀ s : List ℤ, (∀ b ∈ bits, b < 2) →
    bits.length ≤ s.length →
    (List.zipWith set_lsb s bits ++ s.drop bits.length).map lsb
      = bits ++ (s.drop bits.length).map lsb := by
  induction bits with
  | nil => intro s _ _; simp
  | cons b bs ih =>
    intro s hb hs
    cases s with
    | nil => simp at hs
    | cons x xs =>
      simp only [List.length_cons, Nat.add_le_add_iff_right] at hs
      have hb0 : b < 2 := hb b (by simp)
      have hbs : ∀ c ∈ bs, c < 2 := fun c hc => hb c (by simp [hc])
      simp only [List.zipWith_cons_cons, List.length_cons, List.drop_succ_cons,
        List.cons_append, List.map_cons, lsb_set_lsb x b hb0, ih xs hbs hs]

theorem length_embed (bits : List ℕ) (s : List ℤ) (hs : bits.length ≤ s.length) :
    (List.zipWith set_lsb s bits ++ s.drop bits.length).length = s.length := by
  simp only [List.length_append, List.length_zipWith, List.length_drop]
  omega

theorem getD_embed_high (bits : List ℕ) : ∀ (s : List ℤ) (i : ℕ), bits.length ≤ i →
    (List.zipWith set_lsb s bits ++ s.drop bits.length).getD i 0 = s.getD i 0 := by
  induction bits with
  | nil => intro s i _; simp
  | cons b bs ih =>
    intro s i hi
    cases s with
    | nil => simp
    | cons x xs =>
      cases i with
      | zero => simp at hi
      | succ j =>
        simp only [List.length_cons, Nat.add_le_add_iff_right] at hi
        simpa only [List.zipWith_cons_cons, List.length_cons, List.drop_succ_cons,
          List.cons_append, List.getD_cons_succ] using ih xs j hi

theorem getD_embed_div (bits : List ℕ) : ∀ s : List ℤ, (∀ b ∈ bits, b < 2) → ∀ i : ℕ,
    (List.zipWith set_lsb s bits ++ s.drop bits.length).getD i 0 / 2
      = s.getD i 0 / 2 := by
  induction bits with
  | nil => intro s _ i; simp
  | cons b bs ih =>
    intro s hb i
    cases s with
    | nil => simp
    | cons x xs =>
      have hb0 : b < 2 := hb b (by simp)
      have hbs : ∀ c ∈ bs, c < 2 := fun c hc => hb c (by simp [hc])
      cases i with
      | zero =>
        simp only [List.zipWith_cons_cons, List.cons_append, List.getD_cons_zero]
        exact set_lsb_div_two x b hb0
      | succ j =>
        simpa only [List.zipWith_cons_cons, List.length_cons, List.drop_succ_cons,
          List.cons_append, List.getD_cons_succ] using ih xs hbs j

/-! ### Fit resizer lemmas -/

theorem shrink_loop_le (aspect : ℚ) (max_bytes : ℤ) (hmb : 0 ≤ max_bytes) :
    ∀ w h : ℕ,
      (((shrink_loop aspect max_bytes w h).1 * (shrink_loop aspect max_bytes w h).2 * 3 : ℕ) : ℤ)
        ≤ max_bytes := by
  intro w
  induction w with
  | zero => intro h; simpa [shrink_loop] using hmb
  | succ w ih =>
    intro h
    rw [shrink_loop]
    split
    · exact ih _
    · rename_i hc
      push_neg at hc
      simpa using hc

theorem resize_core_ok (w h nw nh : ℕ) (max_bytes : ℤ)
    (hok : resize_core w h max_bytes = .ok (nw, nh)) :
    0 ≤ max_bytes ∧ ((nw * nh * 3 : ℕ) : ℤ) ≤ max_bytes := by
  simp only [resize_core] at hok
  split at hok
  · exact absurd hok (by simp)
  · rename_i hh0
    split at hok
    · exact absurd hok (by simp)
    · split at hok
      · exact absurd hok (by simp)
      · rename_i ha0 hq
        push_neg at hq
        have haspect : (0 : ℚ) < (w : ℚ) / (h : ℚ) := by
          rcases lt_or_eq_of_le (div_nonneg (by positivity) (by positivity) :
            (0 : ℚ) ≤ (w : ℚ) / (h : ℚ)) with h1 | h1
          · exact h1
          · exact absurd h1.symm ha0
        have hmp : (0 : ℚ) ≤ ((max_bytes / 3 : ℤ) : ℚ) := by
          by_contra hneg
          push_neg at hneg
          have : ((max_bytes / 3 : ℤ) : ℚ) / ((w : ℚ) / (h : ℚ)) < 0 :=
            div_neg_of_neg_of_pos hneg haspect
          exact absurd this (not_lt.mpr hq)
        have hmb : 0 ≤ max_bytes := by
          have : (0 : ℤ) ≤ max_bytes / 3 := by exact_mod_cast hmp
          omega
        refine ⟨hmb, ?_⟩
        simp only [Except.ok.injEq] at hok
        obtain ⟨W, H, hWH⟩ :
            ∃ W H, shrink_loop ((w : ℚ) / (h : ℚ)) max_bytes W H = (nw, nh) := ⟨_, _, hok⟩
        have h2 := shrink_loop_le ((w : ℚ) / (h : ℚ)) max_bytes hmb W H
        rw [hWH] at h2
        simpa using h2

theorem resize_core_err (w h : ℕ) (max_bytes : ℤ) (e : StegError)
    (herr : resize_core w h max_bytes = .error e) :
    e = .zeroDivision ∨ e = .mathDomain := by
  simp only [resize_core] at herr
  split at herr
  · simp only [Except.error.injEq] at herr; exact Or.inl herr.symm
  · split at herr
    · simp only [Except.error.injEq] at herr; exact Or.inl herr.symm
    · split at herr
      · simp only [Except.error.injEq] at herr; exact Or.inr herr.symm
      · simp at herr

theorem resize_obj_ok (img img2 : ImagePayload) (max_bytes : ℤ)
    (hok : resize_image_obj img max_bytes = .ok img2) :
    ((img2.width * img2.height * 3 : ℕ) : ℤ) ≤ max_bytes ∧
      (img2 = img ∨ img2.data.length = img2.width * img2.height * 3) := by
  simp only [resize_image_obj] at hok
  split at hok
  · rename_i hfit
    simp only [Except.ok.injEq] at hok
    subst hok
    exact ⟨hfit, Or.inl rfl⟩
  · split at hok
    · exact absurd hok (by simp)
    · rename_i hcore
      split at hok
      · exact absurd hok (by simp)
      · simp only [Except.ok.injEq] at hok
        subst hok
        refine ⟨(resize_core_ok _ _ _ _ _ hcore).2, Or.inr ?_⟩
        simp

theorem resize_obj_ne_indexError (img : ImagePayload) (max_bytes : ℤ) :
    resize_image_obj img max_bytes ≠ .error .indexError := by
  intro hcontra
  simp only [resize_image_obj] at hcontra
  split at hcontra
  · simp at hcontra
  · split at hcontra
    · rename_i e hcore
      simp only [Except.error.injEq] at hcontra
      subst hcontra
      rcases resize_core_err _ _ _ _ hcore with h | h <;> simp at h
    · split at hcontra <;> simp at hcontra

theorem resize_core_neg (w h : ℕ) (mb : ℤ) (hw : 0 < w) (hh : 0 < h) (hmb : mb < 0) :
    resize_core w h mb = .error .mathDomain := by
  have haspect : (0 : ℚ) < (w : ℚ) / (h : ℚ) :=
    div_pos (by exact_mod_cast hw) (by exact_mod_cast hh)
  simp only [resize_core]
  split
  · rename_i h0; omega
  · split
    · rename_i ha; exact absurd ha (ne_of_gt haspect)
    · split
      · rfl
      · rename_i hq
        have hmp : (mb / 3 : ℤ) < 0 := by omega
        have : ((mb / 3 : ℤ) : ℚ) / ((w : ℚ) / (h : ℚ)) < 0 :=
          div_neg_of_neg_of_pos (by exact_mod_cast hmp) haspect
        exact absurd this hq

theorem resize_core_small (w h : ℕ) (mb : ℤ) (hw : 0 < w) (hh : 0 < h)
    (h0 : 0 ≤ mb) (h3 : mb < 3) : resize_core w h mb = .ok (0, 0) := by
  have haspect : (0 : ℚ) < (w : ℚ) / (h : ℚ) :=
    div_pos (by exact_mod_cast hw) (by exact_mod_cast hh)
  have hmp : (mb / 3 : ℤ) = 0 := by omega
  simp only [resize_core, hmp]
  split
  · rename_i hz; omega
  · split
    · rename_i ha; exact absurd ha (ne_of_gt haspect)
    · split
      · rename_i hq
        simp only [Int.cast_zero, zero_div] at hq
        exact absurd hq (by norm_num)
      · simp [shrink_loop]

theorem resize_audio_ok (img : ImagePayload) (fr : FitResult) (max_bytes : ℤ)
    (hok : resize_image_for_audio img max_bytes = .ok fr) :
    ((fr.final_size.1 * fr.final_size.2 * 3 : ℕ) : ℤ) ≤ max_bytes := by
  simp only [resize_image_for_audio] at hok
  split at hok
  · rename_i hfit
    simp only [Except.ok.injEq] at hok
    subst hok
    exact hfit
  · split at hok
    · exact absurd hok (by simp)
    · rename_i hcore
      split at hok
      · exact absurd hok (by simp)
      · simp only [Except.ok.injEq] at hok
        subst hok
        exact (resize_core_ok _ _ _ _ _ hcore).2

/-! ### Embed pipeline lemmas -/

theorem embed_payload_eq (samples : List ℤ) (img : ImagePayload)
    (hfit : (12 + img.data.length) * 8 ≤ samples.length) :
    embed_payload samples img =
      .ok { out_samples :=
              List.zipWith set_lsb samples
                  (bytesToBits (pack_header img.width img.height img.data.length ++ img.data))
                ++ samples.drop ((12 + img.data.length) * 8)
            image_size := (img.width, img.height)
            data_bytes := img.data.length
            capacity_usage :=
              (((12 + img.data.length) * 8 : ℕ) : ℚ) / (samples.length : ℚ) * 100 } := by
  have hlen : (bytesToBits (pack_header img.width img.height img.data.length ++ img.data)).length
      = (12 + img.data.length) * 8 := by
    rw [length_bytesToBits]
    simp only [List.length_append, length_pack_header]
    omega
  have hle : (bytesToBits (pack_header img.width img.height img.data.length ++ img.data)).length
      ≤ samples.length := by omega
  have hdl : (pack_header img.width img.height img.data.length ++ img.data).length
      = 12 + img.data.length := by
    simp only [List.length_append, length_pack_header]
  simp only [embed_payload, embedBits_eq _ _ hle, hlen, hdl]

theorem embed_payload_ok_inv (samples : List ℤ) (img : ImagePayload) (r : HideResult)
    (hok : embed_payload samples img = .ok r) :
    (bytesToBits (pack_header img.width img.height img.data.length ++ img.data)).length
        ≤ samples.length ∧
      r.out_samples =
        List.zipWith set_lsb samples
            (bytesToBits (pack_header img.width img.height img.data.length ++ img.data))
          ++ samples.drop
            (bytesToBits (pack_header img.width img.height img.data.length ++ img.data)).length ∧
      r.data_bytes = img.data.length := by
  simp only [embed_payload] at hok
  cases hemb : embedBits samples
      (bytesToBits (pack_header img.width img.height img.data.length ++ img.data)) with
  | error e => rw [hemb] at hok; simp at hok
  | ok out =>
    have hle := embedBits_ok_length _ _ _ hemb
    have heq := embedBits_eq
      (bytesToBits (pack_header img.width img.height img.data.length ++ img.data)) samples hle
    rw [hemb] at heq
    simp only [Except.ok.injEq] at heq
    rw [hemb] at hok
    simp only [Except.ok.injEq] at hok
    rw [← hok, ← heq]
    exact ⟨hle, rfl, rfl⟩

theorem floor_nat_div_eight (n : ℕ) : ⌊((n : ℚ)) / 8⌋ = ((n / 8 : ℕ) : ℤ) := by
  rw [show (8 : ℚ) = ((8 : ℕ) : ℚ) from by norm_num, Rat.floor_natCast_div_natCast]
  omega

/-! ### Claim theorems -/

/-- C2: for every `total_samples = n_frames * n_channels`, the capacity
calculator returns `capacity_bytes = floor(total_samples / 8) - 12`;
capacity is non-decreasing in the sample count; and the value is
reported as-is, in particular it is negative whenever
`total_samples < 96` (the function is total, nothing raises). -/
theorem get_audio_capacity_spec :
    (∀ f c : ℕ, (get_audio_capacity f c).capacity_bytes = ⌊((f * c : ℕ) : ℚ) / 8⌋ - 12)
    ∧ (∀ f c f' c' : ℕ, f * c ≤ f' * c' →
        (get_audio_capacity f c).capacity_bytes ≤ (get_audio_capacity f' c').capacity_bytes)
    ∧ (∀ f c : ℕ, f * c < 96 → (get_audio_capacity f c).capacity_bytes < 0) := by
  refine ⟨?_, ?_, ?_⟩
  · intro f c
    show ((f * c / 8 : ℕ) : ℤ) - 12 = _
    rw [floor_nat_div_eight]
  · intro f c f' c' hle
    show ((f * c / 8 : ℕ) : ℤ) - 12 ≤ ((f' * c' / 8 : ℕ) : ℤ) - 12
    have : f * c / 8 ≤ f' * c' / 8 := Nat.div_le_div_right hle
    omega
  · intro f c h
    show ((f * c / 8 : ℕ) : ℤ) - 12 < 0
    have : f * c / 8 ≤ 11 := by omega
    omega

theorem get_audio_capacity_spec_witness :
    ((441000 * 1 : ℕ) ≤ 441001 * 1 ∧
      (get_audio_capacity 441000 1).capacity_bytes ≤ (get_audio_capacity 441001 1).capacity_bytes)
    ∧ ((10 * 1 : ℕ) < 96 ∧ (get_audio_capacity 10 1).capacity_bytes < 0) :=
  ⟨⟨by norm_num, get_audio_capacity_spec.2.1 441000 1 441001 1 (by norm_num)⟩,
   ⟨by norm_num, get_audio_capacity_spec.2.2 10 1 (by norm_num)⟩⟩

/-- C3: serialising any `(w, h, s)` of unsigned 32-bit range as three
little-endian u32 fields in the order width, height, size yields exactly
12 bytes, and parsing them back returns `(w, h, s)` unchanged. -/
theorem header_roundtrip_spec (w h s : ℕ)
    (hw : w < 4294967296) (hh : h < 4294967296) (hs : s < 4294967296) :
    (pack_header w h s).length = 12 ∧ unpack_header (pack_header w h s) = (w, h, s) :=
  ⟨length_pack_header w h s, unpack_pack_header w h s hw hh hs⟩

theorem header_roundtrip_spec_witness :
    ((4294967295 : ℕ) < 4294967296) ∧
      (pack_header 4294967295 2 3).length = 12 ∧
        unpack_header (pack_header 4294967295 2 3) = (4294967295, 2, 3) :=
  ⟨by norm_num,
   header_roundtrip_spec 4294967295 2 3 (by norm_num) (by norm_num) (by norm_num)⟩

/-- C5: whenever the fit resizer returns a result rather than failing
(both the in-memory `resize_image_obj` and the file-based
`resize_image_for_audio`), the returned dimensions satisfy
`final_width * final_height * 3 ≤ max_bytes`. -/
theorem fit_budget_satisfaction :
    (∀ (img img2 : ImagePayload) (max_bytes : ℤ),
        resize_image_obj img max_bytes = .ok img2 →
        ((img2.width * img2.height * 3 : ℕ) : ℤ) ≤ max_bytes)
    ∧ (∀ (img : ImagePayload) (fr : FitResult) (max_bytes : ℤ),
        resize_image_for_audio img max_bytes = .ok fr →
        ((fr.final_size.1 * fr.final_size.2 * 3 : ℕ) : ℤ) ≤ max_bytes) :=
  ⟨fun img img2 mb hok => (resize_obj_ok img img2 mb hok).1,
   fun img fr mb hok => resize_audio_ok img fr mb hok⟩

theorem fit_budget_satisfaction_witness :
    (((2 * 2 * 3 : ℕ) : ℤ) ≤ 100) ∧ (((2 * 2 * 3 : ℕ) : ℤ) ≤ 100) :=
  ⟨fit_budget_satisfaction.1 ⟨2, 2, List.replicate 12 0⟩ ⟨2, 2, List.replicate 12 0⟩ 100
      (by unfold resize_image_obj; rw [if_pos (by decide)]),
   fit_budget_satisfaction.2 ⟨2, 2, List.replicate 12 0⟩
      ⟨false, (2, 2), (2, 2), 12, 12⟩ 100
      (by simp only [resize_image_for_audio]; rw [if_pos (by decide)])⟩

/-- C6: refitting is idempotent — composing the fit resizer with itself
at the same budget equals a single application — and in particular a
payload that already fits (`width * height * 3 ≤ max_bytes`) is returned
unchanged, with `resized = false` in the file-based variant. -/
theorem fit_idempotent :
    (∀ (img : ImagePayload) (max_bytes : ℤ),
        (resize_image_obj img max_bytes).bind (fun i => resize_image_obj i max_bytes)
          = resize_image_obj img max_bytes)
    ∧ (∀ (img : ImagePayload) (max_bytes : ℤ),
        ((img.width * img.height * 3 : ℕ) : ℤ) ≤ max_bytes →
        resize_image_obj img max_bytes = .ok img ∧
          resize_image_for_audio img max_bytes = .ok
            { resized := false
              original_size := (img.width, img.height)
              final_size := (img.width, img.height)
              original_bytes := img.width * img.height * 3
              final_bytes := img.width * img.height * 3 }) := by
  constructor
  · intro img mb
    cases hres : resize_image_obj img mb with
    | error e => simp [Except.bind]
    | ok img2 =>
      have hfit := (resize_obj_ok img img2 mb hres).1
      simp only [Except.bind]
      unfold resize_image_obj
      rw [if_pos hfit]
  · intro img mb hfit
    constructor
    · unfold resize_image_obj
      rw [if_pos hfit]
    · simp only [resize_image_for_audio]
      rw [if_pos hfit]

theorem fit_idempotent_witness :
    (((2 * 2 * 3 : ℕ) : ℤ) ≤ 12) ∧
      resize_image_obj ⟨2, 2, List.replicate 12 5⟩ 12 = .ok ⟨2, 2, List.replicate 12 5⟩ :=
  ⟨by decide, (fit_idempotent.2 ⟨2, 2, List.replicate 12 5⟩ 12 (by decide)).1⟩

/-- C7 counterexample: on the oversized 1x1 payload, a degenerate budget
does fail, but with the zero-dimension resize error (budget 2) or the
square-root domain error (budget -1) — both raised inside the resizer —
and neither of those is the capacity-exceeded kind that the claim names
(in the source, the capacity kind is the dedicated
`ValueError("Image too large! ...")` raise of `hide_image`; the resizer
raises the `math.sqrt` domain error or the image library's
zero-dimension error instead). -/
theorem fit_degenerate_not_capacity_counterexample :
    resize_image_obj ⟨1, 1, [9, 9, 9]⟩ 2 = .error .invalidResizeDims ∧
      resize_image_obj ⟨1, 1, [9, 9, 9]⟩ (-1) = .error .mathDomain ∧
      StegError.invalidResizeDims ≠ StegError.capacityExceeded ∧
      StegError.mathDomain ≠ StegError.capacityExceeded := by
  refine ⟨?_, ?_, by decide, by decide⟩
  · unfold resize_image_obj
    rw [if_neg (by decide),
      resize_core_small (⟨1, 1, [9, 9, 9]⟩ : ImagePayload).width
        (⟨1, 1, [9, 9, 9]⟩ : ImagePayload).height 2
        (by decide) (by decide) (by decide) (by decide)]
    simp
  · unfold resize_image_obj
    rw [if_neg (by decide),
      resize_core_neg (⟨1, 1, [9, 9, 9]⟩ : ImagePayload).width
        (⟨1, 1, [9, 9, 9]⟩ : ImagePayload).height (-1)
        (by decide) (by decide) (by decide)]

/-- C7 (amended): on an oversized payload (`width * height * 3 >
max_bytes`) with a degenerate budget `max_bytes < 3`, the fit resizer
fails with a fatal error raised inside the resizer — the square-root
domain error when the budget is negative, and the zero-dimension resize
error when the budget is in `[0, 3)` (the shrink computation having
driven the width to 0) — never the capacity-exceeded kind, and never
silently accepting a zero-width result. -/
theorem fit_degenerate_budget (img : ImagePayload) (max_bytes : ℤ)
    (hw : 0 < img.width) (hh : 0 < img.height)
    (hover : max_bytes < ((img.width * img.height * 3 : ℕ) : ℤ))
    (hdeg : max_bytes < 3) :
    (max_bytes < 0 → resize_image_obj img max_bytes = .error .mathDomain) ∧
      (0 ≤ max_bytes → resize_image_obj img max_bytes = .error .invalidResizeDims) ∧
      resize_image_obj img max_bytes ≠ .error .capacityExceeded := by
  have hneg : max_bytes < 0 → resize_image_obj img max_bytes = .error .mathDomain := by
    intro h
    unfold resize_image_obj
    rw [if_neg (not_le.mpr hover), resize_core_neg img.width img.height max_bytes hw hh h]
  have hpos : 0 ≤ max_bytes → resize_image_obj img max_bytes = .error .invalidResizeDims := by
    intro h
    unfold resize_image_obj
    rw [if_neg (not_le.mpr hover),
      resize_core_small img.width img.height max_bytes hw hh h hdeg]
    simp
  refine ⟨hneg, hpos, ?_⟩
  rcases lt_or_le max_bytes 0 with h | h
  · rw [hneg h]; simp
  · rw [hpos h]; simp

theorem fit_degenerate_budget_witness :
    ((0 : ℕ) < 1 ∧ (2 : ℤ) < 3 ∧ (0 : ℤ) ≤ 2) ∧
      resize_image_obj ⟨1, 1, [9, 9, 9]⟩ 2 = .error .invalidResizeDims :=
  ⟨⟨by decide, by decide, by decide⟩,
   (fit_degenerate_budget ⟨1, 1, [9, 9, 9]⟩ 2
       (by decide) (by decide) (by decide) (by decide)).2.1 (by decide)⟩

/-- C4: with auto-fit off, `hide_image` fails with the capacity error
exactly when `(12 + payload_bytes) * 8 > len(samples)`; in particular a
100x100 RGB payload (30000 data bytes, 240096 total bits) embeds into
exactly 240096 samples with `capacity_usage = 100` and fails with the
capacity error on 240095 samples. -/
theorem capacity_boundary :
    (∀ (samples : List ℤ) (img : ImagePayload),
        hide_image samples img false = .error .capacityExceeded
          ↔ (12 + img.data.length) * 8 > samples.length)
    ∧ (∃ r, hide_image (List.replicate 240096 0) ⟨100, 100, List.replicate 30000 0⟩ false
          = .ok r ∧ r.capacity_usage = 100)
    ∧ hide_image (List.replicate 240095 0) ⟨100, 100, List.replicate 30000 0⟩ false
        = .error .capacityExceeded := by
  have hd : ((⟨100, 100, List.replicate 30000 0⟩ : ImagePayload)).data.length = 30000 :=
    List.length_replicate _ _
  refine ⟨?_, ?_, ?_⟩
  · intro samples img
    by_cases hc : (12 + img.data.length) * 8 > samples.length
    · unfold hide_image
      rw [if_pos hc]
      simp [hc]
    · unfold hide_image
      rw [if_neg hc, embed_payload_eq _ _ (le_of_not_lt hc)]
      simp [hc]
  · have hc : ¬((12 + ((⟨100, 100, List.replicate 30000 0⟩ : ImagePayload)).data.length) * 8
        > (List.replicate 240096 (0 : ℤ)).length) := by
      rw [hd, List.length_replicate]
      omega
    have hh := embed_payload_eq (List.replicate 240096 (0 : ℤ))
      ⟨100, 100, List.replicate 30000 0⟩ (by rw [hd, List.length_replicate])
    have hhide : hide_image (List.replicate 240096 0) ⟨100, 100, List.replicate 30000 0⟩ false
        = embed_payload (List.replicate 240096 0) ⟨100, 100, List.replicate 30000 0⟩ := by
      unfold hide_image
      rw [if_neg hc]
    rw [hhide, hh]
    refine ⟨_, rfl, ?_⟩
    show (((12 + ((⟨100, 100, List.replicate 30000 0⟩ : ImagePayload)).data.length) * 8 : ℕ) : ℚ)
        / (((List.replicate 240096 (0 : ℤ)).length : ℕ) : ℚ) * 100 = 100
    rw [hd, List.length_replicate]
    norm_num
  · have hc : (12 + ((⟨100, 100, List.replicate 30000 0⟩ : ImagePayload)).data.length) * 8
        > (List.replicate 240095 (0 : ℤ)).length := by
      rw [hd, List.length_replicate]
      omega
    unfold hide_image
    rw [if_pos hc]
    rfl

/-- C8 counterexample: with `auto_fit = true` and a pathological budget
(50 samples, so the resize budget is `50 / 8 - 12 = -6`), the embed call
fails inside the fit resizer with the square-root domain error — not
with the capacity error, and not from a bound check in the bit-write
loop (whose failure mode is the index error). -/
theorem autofit_pathological_counterexample :
    hide_image (List.replicate 50 (0 : ℤ)) ⟨1, 1, [1, 2, 3]⟩ true = .error .mathDomain ∧
      StegError.mathDomain ≠ StegError.indexError ∧
      StegError.mathDomain ≠ StegError.capacityExceeded := by
  refine ⟨?_, by decide, by decide⟩
  have h2 : resize_image_obj ⟨1, 1, [1, 2, 3]⟩ (-6) = .error .mathDomain := by
    unfold resize_image_obj
    rw [if_neg (by decide), resize_core_neg 1 1 (-6) (by decide) (by decide) (by decide)]
  have h1 : (((List.replicate 50 (0 : ℤ)).length / 8 : ℕ) : ℤ) - 12 = -6 := by simp
  unfold hide_image
  rw [if_pos (by decide), if_pos rfl, h1, h2]

/-- C8 (amended): with `auto_fit = true` on a well-formed payload, the
embed call never fails with the bit-write loop's out-of-range error —
a pathological budget dies inside the fit resizer instead, and after a
successful resize the payload always fits the bit-write loop's bound. -/
theorem autofit_no_write_loop_failure (samples : List ℤ) (img : ImagePayload)
    (hwf : img.data.length = img.width * img.height * 3) :
    hide_image samples img true ≠ .error .indexError := by
  unfold hide_image
  by_cases hc : (12 + img.data.length) * 8 > samples.length
  · rw [if_pos hc, if_pos rfl]
    cases hres : resize_image_obj img (((samples.length / 8 : ℕ) : ℤ) - 12) with
    | error e =>
      show Except.error e ≠ Except.error StegError.indexError
      simp only [ne_eq, Except.error.injEq]
      intro he
      rw [he] at hres
      exact resize_obj_ne_indexError img _ hres
    | ok img2 =>
      show embed_payload samples img2 ≠ Except.error StegError.indexError
      have hob := resize_obj_ok img img2 _ hres
      have hlen2 : img2.data.length = img2.width * img2.height * 3 := by
        rcases hob.2 with h | h
        · rw [h]; exact hwf
        · exact h
      have h1 := hob.1
      rw [← hlen2] at h1
      have hbound : (12 + img2.data.length) * 8 ≤ samples.length := by omega
      rw [embed_payload_eq _ _ hbound]
      simp
  · rw [if_neg hc, embed_payload_eq _ _ (le_of_not_lt hc)]
    simp

theorem autofit_no_write_loop_failure_witness :
    (([1, 2, 3] : List ℕ).length = 1 * 1 * 3) ∧
      hide_image (List.replicate 50 (0 : ℤ)) ⟨1, 1, [1, 2, 3]⟩ true ≠ .error .indexError :=
  ⟨by decide,
   autofit_no_write_loop_failure (List.replicate 50 0) ⟨1, 1, [1, 2, 3]⟩ (by decide)⟩

/-- C9: on a buffer of at least 96 samples, extraction fails with the
corrupt-header error exactly when the decoded header violates
`width > 0 ∧ height > 0 ∧ data_size > 0 ∧ width ≤ 10000 ∧ height ≤ 10000`. -/
theorem extract_header_validation (samples : List ℤ) (h96 : 96 ≤ samples.length) :
    extract_image samples = .error .corruptHeader
      ↔ ¬ header_valid (read_header samples) := by
  simp only [extract_image]
  rw [if_neg (by omega)]
  set t := read_header samples with ht
  by_cases h1 : t.1 = 0 ∨ t.2.1 = 0 ∨ t.2.2 = 0
  · rw [if_pos h1]
    simp only [header_valid, true_iff]
    omega
  · rw [if_neg h1]
    by_cases h2 : 10000 < t.1 ∨ 10000 < t.2.1
    · rw [if_pos h2]
      simp only [header_valid, true_iff]
      omega
    · rw [if_neg h2]
      by_cases h3 : samples.length < 96 + t.2.2 * 8
      · rw [if_pos h3]
        simp only [header_valid]
        constructor
        · intro hcontra; exact absurd hcontra (by simp)
        · intro hcontra; exact absurd (by omega) hcontra
      · rw [if_neg h3]
        simp only [header_valid]
        constructor
        · intro hcontra; exact absurd hcontra (by simp)
        · intro hcontra; exact absurd (by omega) hcontra

theorem extract_header_validation_witness :
    (96 ≤ (List.replicate 96 (0 : ℤ)).length) ∧
      extract_image (List.replicate 96 (0 : ℤ)) = .error .corruptHeader :=
  ⟨by simp,
   (extract_header_validation (List.replicate 96 0) (by simp)).mpr (by decide)⟩

/-- C10: every successful embedding returns a buffer of the same length
as the input in which every sample at index at or beyond
`(12 + payload_bytes) * 8` is bit-identical to the input sample, and
every sample differs from its input sample at most in the
least-significant bit (all higher bits, i.e. the floor halves, agree). -/
theorem embed_frame_property (samples : List ℤ) (img : ImagePayload) (auto_resize : Bool)
    (r : HideResult) (hok : hide_image samples img auto_resize = .ok r) :
    r.out_samples.length = samples.length
    ∧ (∀ i : ℕ, (12 + r.data_bytes) * 8 ≤ i →
        r.out_samples.getD i 0 = samples.getD i 0)
    ∧ (∀ i : ℕ, r.out_samples.getD i 0 / 2 = samples.getD i 0 / 2) := by
  have hembed : ∃ img2, embed_payload samples img2 = .ok r := by
    unfold hide_image at hok
    by_cases hc : (12 + img.data.length) * 8 > samples.length
    · rw [if_pos hc] at hok
      cases auto_resize with
      | false => simp at hok
      | true =>
        rw [if_pos rfl] at hok
        cases hres : resize_image_obj img (((samples.length / 8 : ℕ) : ℤ) - 12) with
        | error e => rw [hres] at hok; simp at hok
        | ok img2 => rw [hres] at hok; exact ⟨img2, hok⟩
    · rw [if_neg hc] at hok
      exact ⟨img, hok⟩
  obtain ⟨img2, hok2⟩ := hembed
  obtain ⟨hle, hout, hdb⟩ := embed_payload_ok_inv _ _ _ hok2
  have hblen :
      (bytesToBits (pack_header img2.width img2.height img2.data.length ++ img2.data)).length
        = (12 + img2.data.length) * 8 := by
    rw [length_bytesToBits]
    simp only [List.length_append, length_pack_header]
    ring
  refine ⟨?_, ?_, ?_⟩
  · rw [hout]
    exact length_embed _ _ hle
  · intro i hi
    rw [hout]
    refine getD_embed_high _ _ _ ?_
    rw [hblen]
    omega
  · intro i
    rw [hout]
    exact getD_embed_div _ _ (mem_bytesToBits_lt_two _) i

theorem embed_frame_property_witness :
    hide_image (List.replicate 96 (0 : ℤ)) ⟨0, 0, []⟩ false = .ok frame_example ∧
      frame_example.out_samples.length = (List.replicate 96 (0 : ℤ)).length := by
  have h : hide_image (List.replicate 96 (0 : ℤ)) ⟨0, 0, []⟩ false = .ok frame_example := by
    unfold hide_image
    rw [if_neg (by decide), embed_payload_eq _ _ (by decide)]
    unfold frame_example
    rw [Except.ok.injEq, HideResult.mk.injEq]
    refine ⟨by decide, rfl, rfl, ?_⟩
    simp only [List.length_nil, List.length_replicate]
    norm_num
  exact ⟨h, (embed_frame_property _ _ _ _ h).1⟩

/-- C1: round-trip law — for any sample buffer with room for the header
plus payload and any well-formed RGB payload (positive dimensions at
most 10000, `width * height * 3` data bytes, byte values below 256),
embedding with auto-fit off succeeds and extracting from the embedded
buffer returns exactly the original payload: same width, same height,
bit-for-bit identical bytes. -/
theorem hide_extract_roundtrip (samples : List ℤ) (img : ImagePayload)
    (hw : 0 < img.width) (hwle : img.width ≤ 10000)
    (hh : 0 < img.height) (hhle : img.height ≤ 10000)
    (hdata : img.data.length = img.width * img.height * 3)
    (hbytes : ∀ v ∈ img.data, v < 256)
    (hcap : (12 + img.data.length) * 8 ≤ samples.length) :
    ∃ r, hide_image samples img false = .ok r
      ∧ extract_image r.out_samples = .ok img := by
  have hLpos : 0 < img.data.length := by
    rw [hdata]
    exact Nat.mul_pos (Nat.mul_pos hw hh) (by norm_num)
  have hLlt : img.data.length < 4294967296 := by
    have := Nat.mul_le_mul hwle hhle
    omega
  set bits := bytesToBits (pack_header img.width img.height img.data.length ++ img.data)
    with hbits
  have hblen : bits.length = (12 + img.data.length) * 8 := by
    rw [hbits, length_bytesToBits]
    simp only [List.length_append, length_pack_header]
    ring
  have hble : bits.length ≤ samples.length := by omega
  set out := List.zipWith set_lsb samples bits ++ samples.drop bits.length with hdefout
  have holen : out.length = samples.length := length_embed _ _ hble
  have hmap : out.map lsb = bits ++ (samples.drop bits.length).map lsb :=
    map_lsb_embed bits samples (mem_bytesToBits_lt_two _) hble
  have hsplit : bits = bytesToBits (pack_header img.width img.height img.data.length)
      ++ bytesToBits img.data := by
    rw [hbits, bytesToBits_append]
  have hplen : (bytesToBits (pack_header img.width img.height img.data.length)).length
      = 96 := by
    rw [length_bytesToBits, length_pack_header]
  have htake96 : (out.take 96).map lsb
      = bytesToBits (pack_header img.width img.height img.data.length) := by
    rw [List.map_take, hmap, List.take_append_of_le_length (by omega), hsplit,
      List.take_left' hplen]
  have hreadh : read_header out = (img.width, img.height, img.data.length) := by
    unfold read_header
    rw [htake96, bitsToBytes_bytesToBits _ (mem_pack_header_lt _ _ _)]
    exact unpack_pack_header _ _ _ (by omega) (by omega) hLlt
  have hptake : ((out.drop 96).take (img.data.length * 8)).map lsb
      = bytesToBits img.data := by
    rw [List.map_take, List.map_drop, hmap, hsplit, List.append_assoc,
      List.drop_left' hplen]
    exact List.take_left' (by rw [length_bytesToBits]; ring)
  have hr1 : (read_header out).1 = img.width := by rw [hreadh]
  have hr2 : (read_header out).2.1 = img.height := by rw [hreadh]
  have hr3 : (read_header out).2.2 = img.data.length := by rw [hreadh]
  refine ⟨{ out_samples :=
              List.zipWith set_lsb samples bits
                ++ samples.drop ((12 + img.data.length) * 8)
            image_size := (img.width, img.height)
            data_bytes := img.data.length
            capacity_usage :=
              (((12 + img.data.length) * 8 : ℕ) : ℚ) / (samples.length : ℚ) * 100 },
          ?_, ?_⟩
  · unfold hide_image
    rw [if_neg (not_lt.mpr hcap)]
    exact embed_payload_eq _ _ hcap
  · show extract_image
        (List.zipWith set_lsb samples bits ++ samples.drop ((12 + img.data.length) * 8))
        = .ok img
    rw [show (12 + img.data.length) * 8 = bits.length from hblen.symm, ← hdefout]
    simp only [extract_image]
    rw [if_neg (by omega), hr1, hr2, hr3]
    rw [if_neg (by omega), if_neg (by omega), if_neg (by omega)]
    rw [hptake, bitsToBytes_bytesToBits _ hbytes, List.take_length]

theorem hide_extract_roundtrip_witness :
    ((12 + ([7, 8, 9] : List ℕ).length) * 8 ≤ (List.replicate 120 (0 : ℤ)).length) ∧
      ∃ r, hide_image (List.replicate 120 (0 : ℤ)) ⟨1, 1, [7, 8, 9]⟩ false = .ok r
        ∧ extract_image r.out_samples = .ok ⟨1, 1, [7, 8, 9]⟩ :=
  ⟨by decide,
   hide_extract_roundtrip (List.replicate 120 0) ⟨1, 1, [7, 8, 9]⟩ (by decide) (by decide)
     (by decide) (by decide) (by decide) (by decide) (by decide)⟩

end AudioSteg
